import Mathlib

/-!
Shallow embedding of `src/macro_data.py` (Macro-Gold-Data).

The script pulls four public gold-market datasets, computes simple
period-over-period deltas and assembles one text digest:

* `fetch_wgc`  — central-bank reserve table: per-cell numeric cleaning,
  numeric-column admissibility, month-over-month top-5 ranking;
* `fetch_gld`  — GLD holdings series: latest value, 1-day and 5-day deltas;
* `fetch_iau`  — IAU price series: the same deltas plus percent variants;
* `fetch_cot`  — CFTC COT report: last GOLD row, Managed-Money positioning;
* `run`        — concatenates the four status strings into one digest.

Numeric cells are modelled as `List Char` text and parsed into `ℚ`;
`Option ℚ` is the numeric-or-missing cell (`none` = NaN after
`pd.to_numeric(errors="coerce")`).  Fallible stages return `Except String`.
-/

namespace MacroGold

/-! ### Numeric normalizer (fetch_wgc, lines 74–84)

The per-column cleaning chain is
`.str.replace(",", "")`, `.str.replace("−", "-")`,
`.str.replace("–", "")`, `.str.replace("—", "")`, then
`pd.to_numeric(errors="coerce")`.  Note that the en dash (U+2013) and the
em dash (U+2014) are replaced by the *empty string*, not by a minus sign;
only the Unicode minus (U+2212) is canonicalised to an ASCII hyphen. -/

/-- Model of `str.replace(a, "")` for a single-character pattern. -/
def removeAll (a : Char) (s : List Char) : List Char :=
  s.filter (fun c => c ≠ a)

/-- Model of `str.replace(a, b)` for single-character pattern and replacement. -/
def replaceAll (a b : Char) (s : List Char) : List Char :=
  s.map (fun c => if c = a then b else c)

/-- The cleaning chain applied to one cell, in source order:
strip commas, canonicalise U+2212 to a hyphen, drop en dashes, drop em
dashes. -/
def cleanCell (s : List Char) : List Char :=
  removeAll '—' (removeAll '–' (replaceAll '−' '-' (removeAll ',' s)))

/-- Value of one decimal digit character. -/
def digitVal (c : Char) : Nat := c.toNat - '0'.toNat

/-- Value of a string of decimal digits (0 on the empty list). -/
def natOfDigits (s : List Char) : Nat :=
  s.foldl (fun a c => 10 * a + digitVal c) 0

/-- Unsigned decimal parse: digits with an optional single point, at least
one digit overall.  Models the number grammar accepted by
`pd.to_numeric` / `float` on the payloads in scope (no exponent forms are
exercised by them). -/
def toNumericUnsigned (s : List Char) : Option ℚ :=
  let intPart := s.takeWhile Char.isDigit
  let rest := s.dropWhile Char.isDigit
  match rest with
  | [] => if intPart.isEmpty then none else some (natOfDigits intPart)
  | '.' :: frac =>
      if frac.all Char.isDigit && !(intPart.isEmpty && frac.isEmpty) then
        some ((natOfDigits intPart : ℚ) + (natOfDigits frac : ℚ) / (10 : ℚ) ^ frac.length)
      else none
  | _ => none

/-- Signed numeric parse; a failed parse is `none` (the coerced NaN). -/
def toNumeric (s : List Char) : Option ℚ :=
  match s with
  | [] => none
  | c :: rest =>
      if c = '-' then (toNumericUnsigned rest).map (fun q => -q)
      else if c = '+' then toNumericUnsigned rest
      else toNumericUnsigned (c :: rest)

/-- The whole per-cell normalizer of `fetch_wgc`: clean, then coerce. -/
def normalizeCell (s : List Char) : Option ℚ :=
  toNumeric (cleanCell s)

theorem cleanCell_cons_hyphen (s : List Char) :
    cleanCell ('-' :: s) = '-' :: cleanCell s := by
  simp [cleanCell, removeAll, replaceAll, List.filter_cons]

theorem cleanCell_cons_uminus (s : List Char) :
    cleanCell ('−' :: s) = '-' :: cleanCell s := by
  simp [cleanCell, removeAll, replaceAll, List.filter_cons]

theorem cleanCell_cons_endash (s : List Char) :
    cleanCell ('–' :: s) = cleanCell s := by
  simp [cleanCell, removeAll, replaceAll, List.filter_cons]

theorem cleanCell_cons_emdash (s : List Char) :
    cleanCell ('—' :: s) = cleanCell s := by
  simp [cleanCell, removeAll, replaceAll, List.filter_cons]

theorem removeAll_of_not_mem {a : Char} {s : List Char} (h : ∀ c ∈ s, c ≠ a) :
    removeAll a s = s := by
  unfold removeAll
  rw [List.filter_eq_self]
  intro c hc
  exact decide_eq_true (h c hc)

theorem replaceAll_of_not_mem {a b : Char} {s : List Char} (h : ∀ c ∈ s, c ≠ a) :
    replaceAll a b s = s := by
  induction s with
  | nil => rfl
  | cons c t ih =>
      have hc : c ≠ a := h c (List.mem_cons_self c t)
      have ht := ih (fun x hx => h x (List.mem_cons_of_mem _ hx))
      simp only [replaceAll, List.map_cons] at ht ⊢
      rw [if_neg hc, ht]

theorem isDigit_ne_special {c : Char} (h : c.isDigit = true) :
    c ≠ '−' ∧ c ≠ '–' ∧ c ≠ '—' ∧ c ≠ '-' ∧ c ≠ '+' ∧ c ≠ ',' := by
  refine ⟨?_, ?_, ?_, ?_, ?_, ?_⟩ <;>
    (intro hc; subst hc; simp [Char.isDigit] at h)

/-- On a list of digits, the cleaning chain is the identity. -/
theorem cleanCell_of_digits {s : List Char} (h : ∀ c ∈ s, c.isDigit = true) :
    cleanCell s = s := by
  unfold cleanCell
  rw [removeAll_of_not_mem (fun c hc => ((isDigit_ne_special (h c hc)).2.2.2.2.2)),
    replaceAll_of_not_mem (fun c hc => ((isDigit_ne_special (h c hc)).1)),
    removeAll_of_not_mem (fun c hc => ((isDigit_ne_special (h c hc)).2.1)),
    removeAll_of_not_mem (fun c hc => ((isDigit_ne_special (h c hc)).2.2.1))]

/-- A nonempty all-digit string parses (unsigned) to its digit value. -/
theorem toNumericUnsigned_digits {s : List Char} (hne : s ≠ [])
    (h : ∀ c ∈ s, c.isDigit = true) :
    toNumericUnsigned s = some ((natOfDigits s : ℚ)) := by
  have hdrop : s.dropWhile Char.isDigit = [] := by
    rw [List.dropWhile_eq_nil_iff]
    exact h
  have htake : s.takeWhile Char.isDigit = s := by
    have := List.takeWhile_append_dropWhile (p := Char.isDigit) (l := s)
    rw [hdrop, List.append_nil] at this
    exact this
  unfold toNumericUnsigned
  rw [htake, hdrop]
  simp [List.isEmpty_iff, hne]

/-- A nonempty all-digit string parses (signed) to its digit value. -/
theorem toNumeric_digits {s : List Char} (hne : s ≠ [])
    (h : ∀ c ∈ s, c.isDigit = true) :
    toNumeric s = some ((natOfDigits s : ℚ)) := by
  cases s with
  | nil => exact absurd rfl hne
  | cons c t =>
      have hc := isDigit_ne_special (h c (List.mem_cons_self c t))
      have hred : toNumeric (c :: t) =
          (if c = '-' then (toNumericUnsigned t).map (fun q => -q)
           else if c = '+' then toNumericUnsigned t
           else toNumericUnsigned (c :: t)) := rfl
      rw [hred, if_neg hc.2.2.2.1, if_neg hc.2.2.2.2.1]
      exact toNumericUnsigned_digits hne h

theorem mem_of_mem_cleanCell {c : Char} {s : List Char} (hc : c ∈ cleanCell s) :
    c = '-' ∨ c ∈ s := by
  unfold cleanCell removeAll replaceAll at hc
  have h1 := List.mem_of_mem_filter hc
  have h2 := List.mem_of_mem_filter h1
  rcases List.mem_map.mp h2 with ⟨c₀, hc₀, heq⟩
  by_cases h : c₀ = '−'
  · subst h
    simp at heq
    exact Or.inl heq.symm
  · rw [if_neg h] at heq
    exact Or.inr (heq ▸ List.mem_of_mem_filter hc₀)

theorem toNumericUnsigned_none_of_no_digit {s : List Char}
    (h : ∀ c ∈ s, c.isDigit = false) :
    toNumericUnsigned s = none := by
  cases s with
  | nil => rfl
  | cons c r =>
      have hc : c.isDigit = false := h c (List.mem_cons_self c r)
      simp only [toNumericUnsigned, List.takeWhile_cons, List.dropWhile_cons, hc,
        Bool.false_eq_true, if_false]
      split
      · rename_i heq
        exact absurd heq (List.cons_ne_nil c r)
      · rename_i heq
        injection heq with h1 h2
        subst h2
        cases r with
        | nil => simp
        | cons x xs =>
            have hx : x.isDigit = false := h x (List.mem_cons_of_mem _ (List.mem_cons_self x xs))
            simp [List.all_cons, hx]
      · rfl

theorem toNumeric_none_of_no_digit {s : List Char}
    (h : ∀ c ∈ s, c.isDigit = false) :
    toNumeric s = none := by
  cases s with
  | nil => rfl
  | cons c r =>
      have hr : ∀ x ∈ r, x.isDigit = false :=
        fun x hx => h x (List.mem_cons_of_mem _ hx)
      have hred : toNumeric (c :: r) =
          (if c = '-' then (toNumericUnsigned r).map (fun q => -q)
           else if c = '+' then toNumericUnsigned r
           else toNumericUnsigned (c :: r)) := rfl
      rw [hred]
      by_cases h1 : c = '-'
      · rw [if_pos h1, toNumericUnsigned_none_of_no_digit hr]
        rfl
      · rw [if_neg h1]
        by_cases h2 : c = '+'
        · rw [if_pos h2]
          exact toNumericUnsigned_none_of_no_digit hr
        · rw [if_neg h2]
          exact toNumericUnsigned_none_of_no_digit h

/-- C1 (amended), supporting lemma: the cleaned form of a digits-and-commas
string is its comma-free digit core. -/
theorem cleanCell_digits_commas {s : List Char}
    (hall : ∀ c ∈ s, c.isDigit = true ∨ c = ',') :
    cleanCell s = removeAll ',' s ∧ ∀ c ∈ removeAll ',' s, c.isDigit = true := by
  have hdig : ∀ c ∈ removeAll ',' s, c.isDigit = true := by
    intro c hc
    have hcs := List.mem_of_mem_filter hc
    have hne : c ≠ ',' := by
      have := List.of_mem_filter hc
      simpa using this
    rcases hall c hcs with h | h
    · exact h
    · exact absurd h hne
  refine ⟨?_, hdig⟩
  unfold cleanCell
  rw [replaceAll_of_not_mem (fun c hc => (isDigit_ne_special (hdig c hc)).1),
    removeAll_of_not_mem (fun c hc => (isDigit_ne_special (hdig c hc)).2.1),
    removeAll_of_not_mem (fun c hc => (isDigit_ne_special (hdig c hc)).2.2.1)]

/-- C1: For numeric text made of digits and comma thousands separators, the
Numeric Normalizer of `fetch_wgc` parses the ASCII-hyphen and Unicode-minus
(U+2212) signed forms to the same magnitude with negative sign; but the
en dash (U+2013) and em dash (U+2014), being replaced by the empty string
rather than by a minus, leave the magnitude with a *positive* sign when used
as a sign character.  A bare em or en dash becomes the missing marker.
(Amended from the claim that all four minus variants agree with the
canonical ASCII form.) -/
theorem normalize_minus_variants (s : List Char)
    (hall : ∀ c ∈ s, c.isDigit = true ∨ c = ',')
    (hd : ∃ c ∈ s, c.isDigit = true) :
    (∃ n : ℕ,
      normalizeCell s = some ((n : ℚ)) ∧
      normalizeCell ('-' :: s) = some (-(n : ℚ)) ∧
      normalizeCell ('−' :: s) = some (-(n : ℚ)) ∧
      normalizeCell ('–' :: s) = some ((n : ℚ)) ∧
      normalizeCell ('—' :: s) = some ((n : ℚ))) ∧
    normalizeCell ['—'] = none ∧ normalizeCell ['–'] = none := by
  obtain ⟨hclean, hdig⟩ := cleanCell_digits_commas hall
  have hne : removeAll ',' s ≠ [] := by
    obtain ⟨c, hc, hcd⟩ := hd
    have : c ∈ removeAll ',' s := by
      unfold removeAll
      refine List.mem_filter.mpr ⟨hc, ?_⟩
      simpa using (isDigit_ne_special hcd).2.2.2.2.2
    exact List.ne_nil_of_mem this
  refine ⟨⟨natOfDigits (removeAll ',' s), ?_, ?_, ?_, ?_, ?_⟩, by decide, by decide⟩
  · unfold normalizeCell
    rw [hclean, toNumeric_digits hne hdig]
  · unfold normalizeCell
    rw [cleanCell_cons_hyphen, hclean]
    have hred : toNumeric ('-' :: removeAll ',' s) =
        (toNumericUnsigned (removeAll ',' s)).map (fun q => -q) := by
      have : toNumeric ('-' :: removeAll ',' s) =
          (if '-' = '-' then (toNumericUnsigned (removeAll ',' s)).map (fun q => -q)
           else if '-' = '+' then toNumericUnsigned (removeAll ',' s)
           else toNumericUnsigned ('-' :: removeAll ',' s)) := rfl
      rw [this, if_pos rfl]
    rw [hred, toNumericUnsigned_digits hne hdig]
    rfl
  · unfold normalizeCell
    rw [cleanCell_cons_uminus, hclean]
    have hred : toNumeric ('-' :: removeAll ',' s) =
        (toNumericUnsigned (removeAll ',' s)).map (fun q => -q) := by
      have : toNumeric ('-' :: removeAll ',' s) =
          (if '-' = '-' then (toNumericUnsigned (removeAll ',' s)).map (fun q => -q)
           else if '-' = '+' then toNumericUnsigned (removeAll ',' s)
           else toNumericUnsigned ('-' :: removeAll ',' s)) := rfl
      rw [this, if_pos rfl]
    rw [hred, toNumericUnsigned_digits hne hdig]
    rfl
  · unfold normalizeCell
    rw [cleanCell_cons_endash, hclean, toNumeric_digits hne hdig]
  · unfold normalizeCell
    rw [cleanCell_cons_emdash, hclean, toNumeric_digits hne hdig]

/-- C1 witness: the amended statement evaluated at the text "1,234". -/
theorem normalize_minus_variants_witness :
    ∃ n : ℕ,
      normalizeCell "1,234".toList = some ((n : ℚ)) ∧
      normalizeCell ('-' :: "1,234".toList) = some (-(n : ℚ)) ∧
      normalizeCell ('−' :: "1,234".toList) = some (-(n : ℚ)) ∧
      normalizeCell ('–' :: "1,234".toList) = some ((n : ℚ)) ∧
      normalizeCell ('—' :: "1,234".toList) = some ((n : ℚ)) :=
  (normalize_minus_variants "1,234".toList (by decide) (by decide)).1

/-- C1 counterexample: the claim as stated is false — an en dash used as a
sign does *not* produce the same sign as the canonical ASCII form: the code
strips it, so "–1,234" parses to +1234 while "-1,234" parses to −1234. -/
theorem normalize_endash_counterexample :
    normalizeCell "–1,234".toList = some ((1234 : ℚ)) ∧
    normalizeCell "-1,234".toList = some ((-1234 : ℚ)) ∧
    ((1234 : ℚ) ≠ (-1234 : ℚ)) := by
  refine ⟨by decide, by decide, by decide⟩

/-- C7: the Numeric Normalizer is total — every text input yields a number
or the missing marker; an input with no digit at all (dash placeholders,
words such as "n/a") yields the missing marker, never a silent zero. -/
theorem normalize_total (s : List Char) :
    ((∃ q : ℚ, normalizeCell s = some q) ∨ normalizeCell s = none) ∧
    ((∀ c ∈ s, c.isDigit = false) → normalizeCell s = none) ∧
    (normalizeCell ['—'] = none ∧ normalizeCell ['–'] = none) := by
  refine ⟨?_, ?_, by decide, by decide⟩
  · cases h : normalizeCell s with
    | none => exact Or.inr rfl
    | some q => exact Or.inl ⟨q, rfl⟩
  · intro h
    unfold normalizeCell
    apply toNumeric_none_of_no_digit
    intro c hc
    rcases mem_of_mem_cleanCell hc with h1 | h1
    · subst h1
      decide
    · exact h c h1

/-- C7 witness: the guarantees evaluated at the placeholder text "n/a". -/
theorem normalize_total_witness : normalizeCell "n/a".toList = none :=
  (normalize_total "n/a".toList).2.1 (by decide)

/-! ### WGC numeric-column admissibility and selection (fetch_wgc, lines 86–95)

A column (the cells after the header) qualifies as numeric when, after the
per-cell normalizer, it has strictly more than 10 non-missing values
(`df_num[c].notna().sum() > 10`).  If fewer than two columns qualify the
adapter returns the structural-drift status; otherwise the last two
qualifying columns become the previous/current month pair. -/

/-- The admissibility floor used by `fetch_wgc`. -/
def minSupport : ℕ := 10

/-- Count of non-missing normalized values in one column of raw cells,
that is `df_num[c].notna().sum()`. -/
def notnaCount (col : List (List Char)) : ℕ :=
  ((col.map normalizeCell).filter Option.isSome).length

/-- One column qualifies as numeric data. -/
def qualifiesNumeric (col : List (List Char)) : Bool :=
  minSupport < notnaCount col

/-- The qualifying numeric columns, in payload order (the candidate columns
are all columns after the first, country, column). -/
def num_cols (cols : List (List (List Char))) : List (List (List Char)) :=
  cols.filter qualifiesNumeric

/-- Status text returned when fewer than two numeric columns qualify. -/
def wgcDriftMsg : String := "📒【央行储备】未找到足够的数值列用于计算月度变化。"

/-- Selection of the previous/current month columns: `num_cols[-2]` and
`num_cols[-1]`, or the drift status when fewer than two columns qualify. -/
def wgcSelect (cols : List (List (List Char))) :
    Except String (List (List Char) × List (List Char)) :=
  match (num_cols cols).reverse with
  | cur :: prev :: _ => .ok (prev, cur)
  | _ => .error wgcDriftMsg

/-- C4: a candidate column whose non-missing count is not above the support
floor is never selected as a data column, and with fewer than two
qualifying columns the adapter reports structural drift instead of
computing a change. -/
theorem wgc_min_support (cols : List (List (List Char))) :
    (∀ c ∈ num_cols cols, minSupport < notnaCount c) ∧
    (∀ p q, wgcSelect cols = .ok (p, q) →
        minSupport < notnaCount p ∧ minSupport < notnaCount q) ∧
    ((num_cols cols).length < 2 → wgcSelect cols = .error wgcDriftMsg) := by
  have hmem : ∀ c ∈ num_cols cols, minSupport < notnaCount c := by
    intro c hc
    have := List.of_mem_filter hc
    simpa [qualifiesNumeric] using this
  refine ⟨hmem, ?_, ?_⟩
  · intro p q hok
    unfold wgcSelect at hok
    split at hok
    · rename_i cur prev rest heq
      have hcur : cur ∈ (num_cols cols).reverse := heq ▸ List.mem_cons_self _ _
      have hprev : prev ∈ (num_cols cols).reverse :=
        heq ▸ List.mem_cons_of_mem _ (List.mem_cons_self _ _)
      have hpq : prev = p ∧ cur = q := by
        injection hok with h
        injection h with h1 h2
        exact ⟨h1, h2⟩
      obtain ⟨h1, h2⟩ := hpq
      subst h1
      subst h2
      exact ⟨hmem prev (List.mem_reverse.mp hprev), hmem cur (List.mem_reverse.mp hcur)⟩
    · exact absurd hok (by simp)
  · intro hlt
    unfold wgcSelect
    split
    · rename_i cur prev rest heq
      have : 2 ≤ (num_cols cols).length := by
        have := congrArg List.length heq
        simp at this
        omega
      omega
    · rfl

/-- C4 witness: a payload with one qualifying column (eleven parseable
cells) and one failing column (three parseable cells) is rejected with the
drift status, and the qualifying column indeed clears the floor. -/
theorem wgc_min_support_witness :
    wgcSelect [List.replicate 11 ['1'], List.replicate 3 ['2']] =
      .error wgcDriftMsg ∧
    minSupport < notnaCount (List.replicate 11 ['1']) :=
  ⟨(wgc_min_support [List.replicate 11 ['1'], List.replicate 3 ['2']]).2.2 (by decide),
   (wgc_min_support [List.replicate 11 ['1'], List.replicate 3 ['2']]).1
     (List.replicate 11 ['1']) (by decide)⟩

/-! ### Period-delta calculators (fetch_gld lines 147–161, fetch_iau lines 194–214)

Both adapters sort by date, check `len(df) < 5`, take `tail(5)` and read
`iloc[-1]`, `iloc[-2]`, `iloc[0]`.  On a date-ascending series those are the
elements at reversed positions 0, 1 and 4. -/

/-- Core of `fetch_gld` on the date-sorted Tonnes series: latest holding,
one-day change, change versus five rows back (window-inclusive).  Raises
(`.error`) when fewer than five rows exist. -/
def gldCompute (series : List ℚ) : Except String (ℚ × ℚ × ℚ) :=
  if series.length < 5 then .error "GLD 历史数据不足 5 行"
  else
    let r := series.reverse
    let today := r.getD 0 0
    let prev := r.getD 1 0
    let first := r.getD 4 0
    .ok (today, today - prev, today - first)

/-- The percent policy of `fetch_iau`: divide by the earlier value unless it
is exactly zero, in which case the percent is 0. -/
def pctChange (change earlier : ℚ) : ℚ :=
  if earlier ≠ 0 then change / earlier * 100 else 0

/-- Core of `fetch_iau` on the date-sorted Close series: latest close,
one-day change and percent, five-row change and percent. -/
def iauCompute (series : List ℚ) : Except String (ℚ × ℚ × ℚ × ℚ × ℚ) :=
  if series.length < 5 then .error "IAU 历史数据不足 5 行"
  else
    let r := series.reverse
    let today := r.getD 0 0
    let prev := r.getD 1 0
    let first := r.getD 4 0
    .ok (today, today - prev, pctChange (today - prev) prev,
         today - first, pctChange (today - first) first)

/-- C2 (amended): the period-delta computation requires at least `lookback`
rows (five), not `lookback + 1`: every series with fewer than five rows
fails with the insufficient-data message, in both the GLD and IAU adapters.
(Amended from the claim that fewer than `lookback + 1` rows always fail: a
five-row series succeeds, see the counterexample.) -/
theorem delta_needs_lookback_rows (series : List ℚ) (h : series.length < 5) :
    gldCompute series = .error "GLD 历史数据不足 5 行" ∧
    iauCompute series = .error "IAU 历史数据不足 5 行" := by
  constructor
  · unfold gldCompute
    rw [if_pos h]
  · unfold iauCompute
    rw [if_pos h]

/-- C2 witness: the four-row series of the claim fails in both adapters. -/
theorem delta_needs_lookback_rows_witness :
    gldCompute [10, 12, 11, 15] = .error "GLD 历史数据不足 5 行" ∧
    iauCompute [10, 12, 11, 15] = .error "IAU 历史数据不足 5 行" :=
  delta_needs_lookback_rows [10, 12, 11, 15] (by decide)

/-- C2 counterexample: the claim as stated is false — it demands failure for
every series shorter than `lookback + 1 = 6` rows, but a five-row series
already succeeds. -/
theorem delta_five_rows_succeed_counterexample :
    gldCompute [10, 12, 11, 15, 20] = .ok (20, 5, 10) ∧
    ([10, 12, 11, 15, 20] : List ℚ).length < 5 + 1 := by
  refine ⟨by norm_num [gldCompute], by decide⟩

/-- C3: on the five-row ascending series [10,12,11,15,20] with lookback 5,
both period-delta calculators yield latest 20, one-step delta +5 and
five-step delta +10 (20 − 10). -/
theorem delta_lookback_example :
    gldCompute [10, 12, 11, 15, 20] = .ok (20, 5, 10) ∧
    iauCompute [10, 12, 11, 15, 20] =
      .ok (20, 5, 100 / 3, 10, 100) := by
  constructor
  · norm_num [gldCompute]
  · unfold iauCompute pctChange
    norm_num

/-- C8: the percent variants divide the point change by the earlier value,
and an earlier value of exactly zero makes the percent 0 by policy rather
than a division fault; shown both on the helper and live inside the IAU
adapter with a zero previous close. -/
theorem pct_zero_policy (c e : ℚ) :
    (e = 0 → pctChange c e = 0) ∧
    (e ≠ 0 → pctChange c e = c / e * 100) ∧
    iauCompute [1, 1, 1, 0, 5] = .ok (5, 5, 0, 4, 400) := by
  refine ⟨?_, ?_, ?_⟩
  · intro h
    subst h
    simp [pctChange]
  · intro h
    simp [pctChange, h]
  · unfold iauCompute pctChange
    norm_num

/-- C8 witness: the policy evaluated at change 7 and earlier value 0, and at
change 1, earlier value 4. -/
theorem pct_zero_policy_witness :
    pctChange 7 0 = 0 ∧ pctChange 1 4 = 1 / 4 * 100 :=
  ⟨(pct_zero_policy 7 0).1 rfl, (pct_zero_policy 1 4).2.1 (by norm_num)⟩

/-! ### Top-K change ranker (fetch_wgc, lines 97–100)

`df_num["Change"] = cur - prev`; rows whose change is NaN are dropped;
the remainder is sorted by `abs_change` descending and truncated to five.
`sort_values(ascending=False)` goes through pandas `nargsort`, which for a
descending sort reverses the value array *before* the ascending argsort and
reverses the resulting indexer *after* (the stable-descending construction
of pandas GH#6399).  With a stable underlying argsort (numpy uses insertion
sort on the small arrays in scope) the two reversals cancel on ties, so
equal keys keep their *original* input order.  The model mirrors this
exactly: reverse the rows, stable ascending insertion sort, reverse the
result. -/

/-- The rows that survive `dropna`: entity paired with its non-missing
signed change. -/
def presentRows (rows : List (String × Option ℚ)) : List (String × ℚ) :=
  rows.filterMap (fun r => r.2.map (fun d => (r.1, d)))

/-- Ascending comparison on the absolute change. -/
def leAbs (a b : String × ℚ) : Prop := |a.2| ≤ |b.2|

instance : DecidableRel leAbs := fun a b => by
  unfold leAbs
  infer_instance

instance : IsTotal (String × ℚ) leAbs := ⟨fun _ _ => le_total _ _⟩

instance : IsTrans (String × ℚ) leAbs := ⟨fun _ _ _ => le_trans⟩

/-- The full descending ranking (before truncation), embedding `nargsort`
with `ascending=False`: pre-reverse, stable ascending sort, post-reverse. -/
def rankAll (rows : List (String × Option ℚ)) : List (String × ℚ) :=
  (List.insertionSort leAbs (presentRows rows).reverse).reverse

/-- The ranker: at most `k` rows by descending absolute change
(`k = 5` in `fetch_wgc`). -/
def rankTop (rows : List (String × Option ℚ)) (k : ℕ) : List (String × ℚ) :=
  (rankAll rows).take k

theorem presentRows_filter_isSome (rows : List (String × Option ℚ)) :
    presentRows (rows.filter (fun r => r.2.isSome)) = presentRows rows := by
  induction rows with
  | nil => rfl
  | cons r t ih =>
      cases h : r.2 with
      | none =>
          simp only [presentRows, List.filter_cons, h, Option.isSome_none,
            List.filterMap_cons] at ih ⊢
          simpa [h] using ih
      | some d =>
          simp only [presentRows, List.filter_cons, h, Option.isSome_some,
            List.filterMap_cons] at ih ⊢
          simp [h, ih]

/-- C5: the ranker drops missing-change rows before ranking (they never
influence the output, in particular they are not ranked as zero), returns
at most `k` rows ordered by descending absolute change with the signed
change preserved from the input, and breaks ties on equal absolute change
stably by original row order — the first-seen row wins, because the two
reversals of the stable-descending sort cancel on ties. -/
theorem rank_top_spec (rows : List (String × Option ℚ)) (k : ℕ) :
    rankTop rows k = rankTop (rows.filter (fun r => r.2.isSome)) k ∧
    (rankTop rows k).length ≤ k ∧
    (rankTop rows k).Pairwise (fun a b => |b.2| ≤ |a.2|) ∧
    (∀ x, x ∈ rankTop rows k → x ∈ presentRows rows) ∧
    (∀ a b, |a.2| = |b.2| → List.Sublist [a, b] (presentRows rows) →
      List.Sublist [a, b] (rankAll rows)) := by
  refine ⟨?_, ?_, ?_, ?_, ?_⟩
  · unfold rankTop rankAll
    rw [presentRows_filter_isSome]
  · exact List.length_take_le k _
  · have hs : (List.insertionSort leAbs (presentRows rows).reverse).Pairwise leAbs :=
      List.sorted_insertionSort leAbs (presentRows rows).reverse
    have hr : (rankAll rows).Pairwise (fun a b => leAbs b a) := by
      unfold rankAll
      exact (List.pairwise_reverse).mpr hs
    exact List.Pairwise.sublist (List.take_sublist k _) hr
  · intro x hx
    have h1 : x ∈ rankAll rows := (List.take_sublist k _).mem hx
    have h2 : x ∈ List.insertionSort leAbs (presentRows rows).reverse :=
      List.mem_reverse.mp h1
    have h3 : x ∈ (presentRows rows).reverse :=
      (List.mem_insertionSort leAbs).mp h2
    exact List.mem_reverse.mp h3
  · intro a b habs hsub
    have hba : leAbs b a := le_of_eq habs.symm
    have h0 : List.Sublist [b, a] (presentRows rows).reverse := by
      simpa using hsub.reverse
    have h1 : List.Sublist [b, a]
        (List.insertionSort leAbs (presentRows rows).reverse) :=
      List.pair_sublist_insertionSort hba h0
    have h2 := h1.reverse
    simpa [rankAll] using h2

/-- C5 witness: on rows A:+3, B:−7, C:missing, D:+7 the output rows come
from the surviving input rows, and the tied pair keeps its input order —
B(−7) still precedes D(+7) in the ranking. -/
theorem rank_top_spec_witness :
    (("D", (7 : ℚ)) ∈
      presentRows [("A", some 3), ("B", some (-7)), ("C", none), ("D", some 7)]) ∧
    List.Sublist [("B", (-7 : ℚ)), ("D", (7 : ℚ))]
      (rankAll [("A", some 3), ("B", some (-7)), ("C", none), ("D", some 7)]) :=
  ⟨(rank_top_spec [("A", some 3), ("B", some (-7)), ("C", none), ("D", some 7)] 2).2.2.2.1
      ("D", (7 : ℚ)) (by decide),
   (rank_top_spec [("A", some 3), ("B", some (-7)), ("C", none), ("D", some 7)] 2).2.2.2.2
      ("B", (-7 : ℚ)) ("D", (7 : ℚ)) (by norm_num)
      (List.Sublist.cons ("A", (3 : ℚ)) (List.Sublist.refl _))⟩

/-! ### COT adapter (fetch_cot, lines 233–330)

The disaggregated report is filtered to rows whose
`Market_and_Exchange_Names` contains "GOLD" case-insensitively
(`str.contains("GOLD", case=False)`); `iloc[-1]` takes the *last* match.
`get_float` walks a list of candidate column names and returns the first
value that parses as a float.  The status always carries the net
Managed-Money position when long and short parse; the weekly-change line is
appended only when both change columns parse as well. -/

/-- One row of the COT table: the market name plus the remaining named
fields as raw text. -/
structure CotRow where
  market : String
  fields : List (String × String)
deriving DecidableEq

/-- Contiguous-substring test on character lists. -/
def isSubstr (needle : List Char) : List Char → Bool
  | [] => needle.isEmpty
  | c :: t => needle.isPrefixOf (c :: t) || isSubstr needle t

/-- Model of `str.contains("GOLD", case=False)` on the market name. -/
def containsGold (s : String) : Bool :=
  isSubstr ("gold".toList) (s.toList.map Char.toLower)

/-- The rows of the gold sub-frame, in file order. -/
def gold_rows (rows : List CotRow) : List CotRow :=
  rows.filter (fun r => containsGold r.market)

/-- The last matching row, if any, i.e. `gold_df.iloc[-1]`. -/
def selectGoldRow (rows : List CotRow) : Option CotRow :=
  (gold_rows rows).getLast?

/-- Model of `get_float`: first candidate column name whose value parses. -/
def get_float (fields : List (String × String)) : List String → Option ℚ
  | [] => none
  | n :: rest =>
      match fields.lookup n with
      | some v =>
          match toNumeric v.toList with
          | some q => some q
          | none => get_float fields rest
      | none => get_float fields rest

def mmLongNames : List String :=
  ["M_Money_Long_All", "M_Money_Long_All_Combin", "Money_Mgt_Long_All"]

def mmShortNames : List String :=
  ["M_Money_Short_All", "M_Money_Short_All_Combin", "Money_Mgt_Short_All"]

def mmLongChgNames : List String :=
  ["M_Money_Long_All_Change", "M_Money_Long_All_Chg", "Money_Mgt_Long_All_Change"]

def mmShortChgNames : List String :=
  ["M_Money_Short_All_Change", "M_Money_Short_All_Chg", "Money_Mgt_Short_All_Change"]

/-- One line of the COT status. The numeric payload is kept as `ℚ`; the
report-date value is carried raw (the `strptime` pretty-printing of the
date is presentation only and not modelled). -/
inductive CotLine where
  | head : CotLine
  | reportWeek : String → CotLine
  | netLong : ℚ → CotLine
  | weekChange : ℚ → CotLine
deriving DecidableEq

/-- The raw report-date field of a row. -/
def reportDateOf (r : CotRow) : String :=
  (r.fields.lookup "As_of_Date_In_Form_YYMMDD").getD ""

/-- The line structure produced from the selected gold row, mirroring the
tail of `fetch_cot`: fail when long or short does not parse; otherwise the
header, report week and net position, plus the weekly change exactly when
both change columns parse. -/
def cotReport (r : CotRow) : Except String (List CotLine) :=
  match get_float r.fields mmLongNames, get_float r.fields mmShortNames with
  | some l, some s =>
      match get_float r.fields mmLongChgNames, get_float r.fields mmShortChgNames with
      | some lc, some sc =>
          .ok [CotLine.head, CotLine.reportWeek (reportDateOf r),
               CotLine.netLong (l - s), CotLine.weekChange (lc - sc)]
      | _, _ =>
          .ok [CotLine.head, CotLine.reportWeek (reportDateOf r),
               CotLine.netLong (l - s)]
  | _, _ => .error "📑【CFTC COT】成功获取文件，但未能解析 Managed Money 多空头寸。"

/-- The whole COT computation after the payload is parsed: pick the last
gold row and build its report. -/
def cotResult (rows : List CotRow) : Except String (List CotLine) :=
  match selectGoldRow rows with
  | none => .error "📑【CFTC COT】未在最新 disaggregated 报告中找到黄金合约，已跳过。"
  | some r => cotReport r

/-- C9: the COT adapter reports the *last* matching GOLD row in file order:
appending a matching row to any payload makes it the selected row and the
source of the reported positions; appending a non-matching row changes
nothing; and any selected row is a matching row of the payload. -/
theorem cot_last_gold (rows : List CotRow) (r : CotRow) :
    (containsGold r.market = true → selectGoldRow (rows ++ [r]) = some r) ∧
    (containsGold r.market = true → cotResult (rows ++ [r]) = cotReport r) ∧
    (containsGold r.market = false →
      selectGoldRow (rows ++ [r]) = selectGoldRow rows) ∧
    (∀ x, selectGoldRow rows = some x → containsGold x.market = true ∧ x ∈ rows) := by
  have happ : ∀ h : containsGold r.market = true,
      selectGoldRow (rows ++ [r]) = some r := by
    intro h
    unfold selectGoldRow gold_rows
    rw [List.filter_append]
    simp [h, List.getLast?_concat]
  refine ⟨happ, ?_, ?_, ?_⟩
  · intro h
    unfold cotResult
    rw [happ h]
  · intro h
    unfold selectGoldRow gold_rows
    rw [List.filter_append]
    simp [h]
  · intro x hx
    unfold selectGoldRow gold_rows at hx
    have hmem : x ∈ rows.filter (fun r => containsGold r.market) :=
      List.mem_of_getLast?_eq_some hx
    have hm := List.mem_filter.mp hmem
    exact ⟨hm.2, hm.1⟩

/-- C9 witness: with two matching rows, the reported row is the second, not
the first, and the reported positions are computed from it. -/
theorem cot_last_gold_witness :
    selectGoldRow
        [⟨"GOLD - COMMODITY EXCHANGE INC.", [("M_Money_Long_All", "30")]⟩,
         ⟨"SILVER - COMMODITY EXCHANGE INC.", []⟩,
         ⟨"GOLD 100 OZ - COMMODITY EXCHANGE INC.",
            [("M_Money_Long_All", "200"), ("M_Money_Short_All", "50")]⟩] =
      some ⟨"GOLD 100 OZ - COMMODITY EXCHANGE INC.",
            [("M_Money_Long_All", "200"), ("M_Money_Short_All", "50")]⟩ ∧
    cotResult
        [⟨"GOLD - COMMODITY EXCHANGE INC.", [("M_Money_Long_All", "30")]⟩,
         ⟨"SILVER - COMMODITY EXCHANGE INC.", []⟩,
         ⟨"GOLD 100 OZ - COMMODITY EXCHANGE INC.",
            [("M_Money_Long_All", "200"), ("M_Money_Short_All", "50")]⟩] =
      cotReport ⟨"GOLD 100 OZ - COMMODITY EXCHANGE INC.",
            [("M_Money_Long_All", "200"), ("M_Money_Short_All", "50")]⟩ :=
  ⟨(cot_last_gold
      [⟨"GOLD - COMMODITY EXCHANGE INC.", [("M_Money_Long_All", "30")]⟩,
       ⟨"SILVER - COMMODITY EXCHANGE INC.", []⟩]
      ⟨"GOLD 100 OZ - COMMODITY EXCHANGE INC.",
         [("M_Money_Long_All", "200"), ("M_Money_Short_All", "50")]⟩).1 (by decide),
   (cot_last_gold
      [⟨"GOLD - COMMODITY EXCHANGE INC.", [("M_Money_Long_All", "30")]⟩,
       ⟨"SILVER - COMMODITY EXCHANGE INC.", []⟩]
      ⟨"GOLD 100 OZ - COMMODITY EXCHANGE INC.",
         [("M_Money_Long_All", "200"), ("M_Money_Short_All", "50")]⟩).2.1 (by decide)⟩

/-- C10: given a row whose Managed-Money long and short parse, the report
always carries the net-position line (long − short), independently of the
change columns; and it carries a weekly-change line if and only if both the
long-change and short-change candidate columns parse. -/
theorem cot_week_change_iff (r : CotRow) (l s : ℚ)
    (hl : get_float r.fields mmLongNames = some l)
    (hs : get_float r.fields mmShortNames = some s) :
    ∃ lines, cotReport r = .ok lines ∧
      CotLine.netLong (l - s) ∈ lines ∧
      ((∃ q, CotLine.weekChange q ∈ lines) ↔
        (get_float r.fields mmLongChgNames).isSome ∧
        (get_float r.fields mmShortChgNames).isSome) := by
  unfold cotReport
  rw [hl, hs]
  cases hlc : get_float r.fields mmLongChgNames with
  | some lc =>
      cases hsc : get_float r.fields mmShortChgNames with
      | some sc => exact ⟨_, rfl, by simp, by simp⟩
      | none => exact ⟨_, rfl, by simp, by simp⟩
  | none =>
      cases hsc : get_float r.fields mmShortChgNames with
      | some sc => exact ⟨_, rfl, by simp, by simp⟩
      | none => exact ⟨_, rfl, by simp, by simp⟩

/-- C10 witness: a concrete row with positions but no change columns gets a
net line and no weekly-change line. -/
theorem cot_week_change_iff_witness :
    ∃ lines,
      cotReport ⟨"GOLD", [("M_Money_Long_All", "200"), ("M_Money_Short_All", "50")]⟩ =
        .ok lines ∧
      CotLine.netLong (200 - 50) ∈ lines ∧
      ((∃ q, CotLine.weekChange q ∈ lines) ↔
        (get_float [("M_Money_Long_All", "200"), ("M_Money_Short_All", "50")]
            mmLongChgNames).isSome ∧
        (get_float [("M_Money_Long_All", "200"), ("M_Money_Short_All", "50")]
            mmShortChgNames).isSome) :=
  cot_week_change_iff
    ⟨"GOLD", [("M_Money_Long_All", "200"), ("M_Money_Short_All", "50")]⟩
    200 50 (by decide) (by decide)

/-! ### Digest assembly (run, lines 337–358)

Every adapter catches all its own faults and returns a status string, so
each of the four sources contributes exactly one string to the digest.  An
adapter invocation is modelled by its outcome: either the normal return
value of the body, or the message of the exception its final handler
caught.  `run` concatenates a header and the four statuses, in invocation
order, with blank separators. -/

/-- Outcome of one adapter body: normal result, or caught exception. -/
inductive SourceOutcome where
  | done : String → SourceOutcome
  | raised : String → SourceOutcome
deriving DecidableEq

/-- The final status string of `fetch_wgc`, for every outcome of its body. -/
def fetch_wgc_status : SourceOutcome → String
  | .done s => s
  | .raised e => "📒【央行储备】WGC 数据暂时无法解析月度变化，已跳过。\n原因：" ++ e

/-- The final status string of `fetch_gld`, for every outcome of its body. -/
def fetch_gld_status : SourceOutcome → String
  | .done s => s
  | .raised e => "📊【GLD ETF 持仓】数据抓取失败，已跳过。\n原因：" ++ e

/-- The final status string of `fetch_iau`, for every outcome of its body. -/
def fetch_iau_status : SourceOutcome → String
  | .done s => s
  | .raised e => "📈【IAU ETF 价格】数据抓取失败，已跳过。\n原因：" ++ e

/-- The final status string of `fetch_cot`, for every outcome of its body. -/
def fetch_cot_status : SourceOutcome → String
  | .done s => s
  | .raised e => "📑【CFTC COT】数据抓取失败，已跳过。\n原因：" ++ e

/-- The parts list assembled by `run`: header, then the four source
sections in fixed order, separated by blank lines. -/
def runParts (today : String) (wgc gld iau cot : SourceOutcome) : List String :=
  ["🕒 黄金宏观数据库自动更新（UTC 日期：" ++ today ++ ")", "",
   fetch_wgc_status wgc, "",
   fetch_gld_status gld, "",
   fetch_iau_status iau, "",
   fetch_cot_status cot]

/-- The digest text sent onward by `run`. -/
def runMsg (today : String) (wgc gld iau cot : SourceOutcome) : String :=
  String.intercalate "\n" (runParts today wgc gld iau cot)

/-- C6: for every combination of per-source outcomes — each adapter body
finishing normally or raising — the digest holds all four source sections
at their fixed positions in invocation order (WGC, GLD, IAU, COT); a
failed source is rendered as its descriptive status string, never omitted,
and the assembly is a total function of the outcomes. -/
theorem run_digest_order (today : String) (wgc gld iau cot : SourceOutcome) :
    (runParts today wgc gld iau cot).length = 9 ∧
    (runParts today wgc gld iau cot)[2]? = some (fetch_wgc_status wgc) ∧
    (runParts today wgc gld iau cot)[4]? = some (fetch_gld_status gld) ∧
    (runParts today wgc gld iau cot)[6]? = some (fetch_iau_status iau) ∧
    (runParts today wgc gld iau cot)[8]? = some (fetch_cot_status cot) ∧
    runMsg today wgc gld iau cot =
      String.intercalate "\n" (runParts today wgc gld iau cot) := by
  refine ⟨rfl, rfl, rfl, rfl, rfl, rfl⟩

end MacroGold
